import Mathlib

set_option linter.unusedVariables false

/-!
Verification development for the calendar application's two core engines:
the lunar/solar conversion service (`src/services/LunarService.ts`) and the
recurrence-rule utilities (`src/utils/rruleUtils.ts`).

Conventions of the embedding:
* A JavaScript `Date` is modelled as a `Nat`: milliseconds since an epoch
  aligned with the proleptic Gregorian day 0000-03-01 (local time = UTC;
  the code never crosses timezones).
* A calendar day is the `Nat` quotient by `msPerDay`; Gregorian
  year/month/day triples are recovered with the standard civil-calendar
  algorithm (`civilOfDay`).
* The `lunar-javascript` library is not part of the repository (only its
  type declarations are); its table-driven conversions are modelled from
  the spec on a concrete three-year table, keeping the library's documented
  convention that a leap month is encoded as a negative month number.
* The `rrule` library is likewise modelled from the spec (RFC-5545
  compatible textual grammar, bounded expansion).
-/

/-- Milliseconds per calendar day, as used by JavaScript dates. -/
def msPerDay : Nat := 86400000

/-- Calendar day index of a date-time (milliseconds value). -/
def dayOf (t : Nat) : Nat := t / msPerDay

/-- A Gregorian calendar date (year, month 1-12, day 1-31). -/
structure CivilDate where
  year : Nat
  month : Nat
  day : Nat
deriving DecidableEq, Repr

/-- Gregorian date of a day index, by the standard civil-from-days
algorithm (era/year-of-era/day-of-year decomposition, March-based). -/
def civilOfDay (z : Nat) : CivilDate :=
  let era := z / 146097
  let doe := z % 146097
  let yoe := (doe - doe / 1460 + doe / 36524 - doe / 146096) / 365
  let doy := doe - (365 * yoe + yoe / 4 - yoe / 100)
  let mp := (5 * doy + 2) / 153
  let d := doy - (153 * mp + 2) / 5 + 1
  let m := if mp < 10 then mp + 3 else mp - 9
  ⟨(if m ≤ 2 then yoe + era * 400 + 1 else yoe + era * 400), m, d⟩

/-- Whether a Gregorian year is a leap year. -/
def isGregLeap (y : Nat) : Bool := (y % 4 == 0 && y % 100 != 0) || y % 400 == 0

/-- Day count of a Gregorian month. -/
def daysInGregMonth (y m : Nat) : Nat :=
  if m = 2 then (if isGregLeap y then 29 else 28)
  else if m = 4 ∨ m = 6 ∨ m = 9 ∨ m = 11 then 30 else 31

/-!
Lunar table model.

Modelled from the spec: the conversion engine of the `lunar-javascript`
library ("deterministic table/algorithm lookup", spec §4.2) is missing from
the repository, so it is modelled as a concrete table: one record per lunar
year giving the day index of lunar new year and the ordered list of months,
each month a pair of its label and its length (29 or 30).  Per the library's
declaration file, a leap month's label is the negated month number.  The
sample table covers lunar years 2024-2026; lunar year 2025 carries a leap
sixth month, month 12 of 2024 has 30 days and month 12 of 2025 has 29 days
(the spec notes month 12 "may be day 29 or day 30 depending on that year's
table").
-/

/-- One lunar year of the table: the lunar year number, the day index of its
new year's day, and its months in calendar order (label, length). -/
structure LunarYearRec where
  year : Nat
  newYear : Nat
  months : List (Int × Nat)
deriving DecidableEq, Repr

/-- Modelled from the spec: the lunar table (see the section comment). -/
def LUNAR_TABLE : List LunarYearRec :=
  [ ⟨2024, 739231,
      [(1,29),(2,30),(3,29),(4,30),(5,29),(6,30),(7,29),(8,30),(9,29),(10,30),(11,29),(12,30)]⟩,
    ⟨2025, 739585,
      [(1,30),(2,29),(3,30),(4,29),(5,30),(6,29),(-6,30),(7,30),(8,29),(9,30),(10,29),(11,30),(12,29)]⟩,
    ⟨2026, 739969,
      [(1,30),(2,29),(3,30),(4,29),(5,30),(6,29),(7,30),(8,29),(9,30),(10,29),(11,30),(12,29)]⟩ ]

/-- Total day count of a lunar year's month list. -/
def monthsTotal (ms : List (Int × Nat)) : Nat := (ms.map (fun p => p.2)).sum

/-- The essentials of a `lunar-javascript` `Lunar` object: lunar year,
signed month label (negative = leap month), day of month. -/
structure LunarRaw where
  year : Nat
  month : Int
  day : Nat
deriving DecidableEq, Repr

/-- Walk a month list with a day offset from new year, producing the signed
month label and the 1-based day of month. -/
def locateInMonths : List (Int × Nat) → Nat → Option (Int × Nat)
  | [], _ => none
  | (lbl, len) :: rest, off =>
    if off < len then some (lbl, off + 1) else locateInMonths rest (off - len)

/-- Modelled from the spec: `Solar.fromDate(..).getLunar()` of the missing
library — locate the day index in the table and walk to its month. -/
def getLunarOfDay (d : Nat) : Option LunarRaw :=
  match LUNAR_TABLE.find? (fun r => r.newYear ≤ d && d < r.newYear + monthsTotal r.months) with
  | none => none
  | some r =>
    (locateInMonths r.months (d - r.newYear)).map fun p => ⟨r.year, p.1, p.2⟩

/-- Offset from new year and length of the month with the given signed
label, scanning the month list in calendar order. -/
def monthStartIn : List (Int × Nat) → Int → Option (Nat × Nat)
  | [], _ => none
  | (lbl, len) :: rest, m =>
    if lbl = m then some (0, len)
    else (monthStartIn rest m).map fun p => (len + p.1, p.2)

/-- Modelled from the spec: `Lunar.fromYmd(year, month, day).getSolar()` of
the missing library — signed month label, day validated against the month's
length, result as a day index. -/
def lunarFromYmd (y : Nat) (m : Int) (day : Nat) : Option Nat :=
  match LUNAR_TABLE.find? (fun r => r.year == y) with
  | none => none
  | some r =>
    match monthStartIn r.months m with
    | none => none
    | some (off, len) =>
      if 1 ≤ day ∧ day ≤ len then some (r.newYear + off + day - 1) else none

/-- Modelled from the spec: `LunarMonth.fromYm(year, month).getDayCount()`
of the missing library. -/
def lunarMonthFromYm (y : Nat) (m : Int) : Option Nat :=
  match LUNAR_TABLE.find? (fun r => r.year == y) with
  | none => none
  | some r => (r.months.find? (fun p => p.1 == m)).map (fun p => p.2)

/-- Modelled from the spec: the solar-term day table of the missing library
(`lunar.getJieQi()`): day index paired with the term name, one entry only on
the exact day a term falls. Sample entries within the table range. -/
def JIEQI_TABLE : List (Nat × String) :=
  [ (739590, "立春"), (739650, "清明"), (739911, "冬至") ]

/-- The twelve "jie" term names (`JIE_TERMS` of `src/types/lunar.ts`). -/
def JIE_TERMS : List String :=
  ["小寒", "立春", "惊蛰", "清明", "立夏", "芒种",
   "小暑", "立秋", "白露", "寒露", "立冬", "大雪"]

/-- The returned lunar date record of `LunarService.solarToLunar`
(`LunarDate` of `src/types/lunar.ts`; the Chinese presentation-string
fields, which no claim mentions, are omitted). -/
structure LunarDate where
  year : Nat
  month : Int
  day : Nat
  isLeapMonth : Bool
deriving DecidableEq, Repr

/-- `LunarService.solarToLunar`: copies the library's fields verbatim —
in particular `month := lunar.getMonth()` (signed) and
`isLeapMonth := lunar.getMonth() < 0`. -/
def solarToLunar (t : Nat) : Option LunarDate :=
  (getLunarOfDay (dayOf t)).map fun (l : LunarRaw) =>
    { year := l.year, month := l.month, day := l.day,
      isLeapMonth := decide (l.month < 0) }

/-- `LunarService.lunarToSolar`: negates the month when the leap flag is
set (the library encodes leap months negatively) and converts; the source
wraps the solar y/m/d in a local-midnight `Date`, i.e. the calendar day
returned here. -/
def lunarToSolar (year : Nat) (month : Int) (day : Nat) (isLeapMonth : Bool) : Option Nat :=
  lunarFromYmd year (if isLeapMonth then -month else month) day

/-- `LunarService.getLunarMonthDays`: day count of a lunar month, with the
source's fallback of 30 when the table has no such month. -/
def getLunarMonthDays (year : Nat) (month : Nat) (isLeapMonth : Bool) : Nat :=
  match lunarMonthFromYm year (if isLeapMonth then -(month : Int) else (month : Int)) with
  | some len => len
  | none => 30

/-- Jie or qi subdivision of a solar term. -/
inductive JieOrQi where
  | jie
  | qi
deriving DecidableEq, Repr

/-- A solar term on a given date (`SolarTerm` of `src/types/lunar.ts`). -/
structure SolarTerm where
  name : String
  date : Nat
  jieOrQi : JieOrQi
deriving DecidableEq, Repr

/-- `LunarService.getSolarTerm`: the term of the date's day, if any,
classified jie/qi by membership in `JIE_TERMS`. -/
def getSolarTerm (t : Nat) : Option SolarTerm :=
  match JIEQI_TABLE.find? (fun p => p.1 == dayOf t) with
  | some p =>
    some { name := p.2, date := t,
           jieOrQi := if JIE_TERMS.contains p.2 then .jie else .qi }
  | none => none

/-- Festival categories (`FestivalType` of `src/types/lunar.ts`). -/
inductive FestivalType where
  | TRADITIONAL
  | SOLAR_TERM
  | MODERN
  | MEMORIAL
deriving DecidableEq, Repr

/-- A festival tag (`Festival` of `src/types/lunar.ts`). -/
structure Festival where
  name : String
  type : FestivalType
  isLunar : Bool
deriving DecidableEq, Repr

/-- An entry of the fixed traditional-festival table. -/
structure TradFest where
  month : Nat
  day : Nat
  name : String
deriving DecidableEq, Repr

/-- `TRADITIONAL_FESTIVALS` of `src/types/lunar.ts` (lunar month, lunar
day, name); the 除夕 entry carries day 30 with the comment "小月则为29". -/
def TRADITIONAL_FESTIVALS : List TradFest :=
  [ ⟨1, 1, "春节"⟩, ⟨1, 15, "元宵节"⟩, ⟨2, 2, "龙抬头"⟩, ⟨5, 5, "端午节"⟩,
    ⟨7, 7, "七夕节"⟩, ⟨7, 15, "中元节"⟩, ⟨8, 15, "中秋节"⟩, ⟨9, 9, "重阳节"⟩,
    ⟨12, 8, "腊八节"⟩, ⟨12, 30, "除夕"⟩ ]

/-- The fixed modern (solar) holiday table inlined in
`LunarService.getFestivals` (month, day, name). -/
def MODERN_FESTIVALS : List (Nat × Nat × String) :=
  [ (1, 1, "元旦"), (5, 1, "劳动节"), (10, 1, "国庆节") ]

/-- One iteration of the traditional-festival loop of
`LunarService.getFestivals`: the entry matches when its month equals the
absolute lunar month, its day equals the lunar day, and the date is not in
a leap month; 除夕 is additionally pushed only when the lunar day equals
`getLunarMonthDays(year, 12, false)`. -/
def tradFestMatch (lunarYear : Nat) (lunarMonthAbs : Nat) (lunarDay : Nat)
    (isLeapMonth : Bool) (f : TradFest) : Option Festival :=
  if f.month = lunarMonthAbs ∧ f.day = lunarDay ∧ isLeapMonth = false then
    if f.name = "除夕" then
      if lunarDay = getLunarMonthDays lunarYear 12 false then
        some ⟨f.name, .TRADITIONAL, true⟩
      else none
    else some ⟨f.name, .TRADITIONAL, true⟩
  else none

/-- The traditional-festival pass of `LunarService.getFestivals` (empty
when the date is outside the lunar table, where the library has no data). -/
def traditionalPass (t : Nat) : List Festival :=
  match getLunarOfDay (dayOf t) with
  | none => []
  | some l =>
    TRADITIONAL_FESTIVALS.filterMap
      (tradFestMatch l.year l.month.natAbs l.day (decide (l.month < 0)))

/-- The solar-term pass of `LunarService.getFestivals`: only 清明 and 冬至
are promoted to festivals. -/
def solarTermPass (t : Nat) : List Festival :=
  match getSolarTerm t with
  | some st =>
    if st.name = "清明" ∨ st.name = "冬至" then [⟨st.name, .SOLAR_TERM, false⟩] else []
  | none => []

/-- The modern-holiday pass of `LunarService.getFestivals`, matching the
Gregorian month and day. -/
def modernPass (t : Nat) : List Festival :=
  let c := civilOfDay (dayOf t)
  MODERN_FESTIVALS.filterMap fun mf =>
    if mf.1 = c.month ∧ mf.2.1 = c.day then some ⟨mf.2.2, .MODERN, false⟩ else none

/-- `LunarService.getFestivals`: the three passes concatenated in source
order — traditional, then solar-term-derived, then modern. -/
def getFestivals (t : Nat) : List Festival :=
  traditionalPass t ++ solarTermPass t ++ modernPass t

/-- The composite per-day record (`FullDateInfo` of `src/types/lunar.ts`);
`lunar` is optional here because the modelled library returns no data
outside its table. -/
structure FullDateInfo where
  solar : Nat
  lunar : Option LunarDate
  solarTerm : Option SolarTerm
  festivals : List Festival
deriving DecidableEq, Repr

/-- `LunarService.getCacheKey`: `dayjs(date).format('YYYY-MM-DD')` — the
key is the Gregorian calendar date of the day, time-of-day discarded. -/
def getCacheKey (t : Nat) : CivilDate := civilOfDay (dayOf t)

/-- Association lookup in the cache (the `Map.has`/`Map.get` pair). -/
def findEntry (k : CivilDate) : List (CivilDate × FullDateInfo) → Option FullDateInfo
  | [] => none
  | (k', v) :: rest => if k' = k then some v else findEntry k rest

/-- The mutable state of the `LunarService` singleton: the per-day cache
plus an instrumentation counter ticking once per cache miss (the spec's
observable for "must not re-trigger the underlying computation"). -/
structure LunarSvc where
  cache : List (CivilDate × FullDateInfo)
  computeCount : Nat
deriving DecidableEq, Repr

/-- `LunarService.getFullDateInfo` with the cache passed explicitly: on a
hit return the stored record unchanged; on a miss compute lunar date,
solar term and festivals, store, and count the computation. -/
def getFullDateInfo (st : LunarSvc) (t : Nat) : FullDateInfo × LunarSvc :=
  let key := getCacheKey t
  match findEntry key st.cache with
  | some v => (v, st)
  | none =>
    let info : FullDateInfo :=
      { solar := t, lunar := solarToLunar t, solarTerm := getSolarTerm t,
        festivals := getFestivals t }
    (info, { cache := (key, info) :: st.cache, computeCount := st.computeCount + 1 })

/-!
Recurrence-rule model (`src/utils/rruleUtils.ts`).

The `rrule` library itself is not part of the repository.  Modelled from
the spec: a canonical, re-parseable RFC-5545-compatible textual encoding
(`FREQ=..;INTERVAL=..;COUNT=..;UNTIL=..;BYDAY=..;BYMONTHDAY=..`), a parser
failing (returning `none`) on structurally invalid text or unrecognized
frequency tokens, and a bounded occurrence expansion.  The `UNTIL` value is
serialized as the canonical day index of the until date.  The wrapper
functions translate the source file on top of this model.
-/

/-- The four supported frequencies (`RepeatRule['frequency']`). -/
inductive Freq where
  | DAILY
  | WEEKLY
  | MONTHLY
  | YEARLY
deriving DecidableEq, Repr

/-- The `RepeatRule` interface of `src/utils/rruleUtils.ts`: `until` (here `untilDate`) is the
end date as a day index, `byWeekday` uses 0-6 with 0 = Monday. -/
structure RepeatRule where
  frequency : Freq
  interval : Nat
  count : Option Nat
  untilDate : Option Nat
  byWeekday : Option (List Nat)
  byMonthDay : Option (List Int)
deriving DecidableEq, Repr

/-- The processed options object of a parsed rule (the library's
`rrule.options` as read by the source). -/
structure RRuleOpts where
  freq : Freq
  interval : Nat
  count : Option Nat
  untilDate : Option Nat
  byweekday : Option (List Nat)
  bymonthday : Option (List Int)
deriving DecidableEq, Repr

/-- Decimal digit character of a value below ten. -/
def natDigitChar (d : Nat) : Char := Char.ofNat (48 + d)

/-- Decimal digits of a number, most significant first. -/
def printNat (n : Nat) : List Char :=
  if h : n < 10 then [natDigitChar n]
  else printNat (n / 10) ++ [natDigitChar (n % 10)]
termination_by n
decreasing_by exact Nat.div_lt_self (by omega) (by omega)

/-- Decimal form of an integer, with a leading minus sign if negative. -/
def printInt (i : Int) : List Char :=
  if i < 0 then '-' :: printNat i.natAbs else printNat i.toNat

/-- Value of a decimal digit character. -/
def digitVal (c : Char) : Option Nat :=
  if 48 ≤ c.toNat ∧ c.toNat ≤ 57 then some (c.toNat - 48) else none

/-- Fold decimal digits onto an accumulator; fails on a non-digit. -/
def parseNatAcc (acc : Nat) : List Char → Option Nat
  | [] => some acc
  | c :: cs =>
    match digitVal c with
    | some d => parseNatAcc (acc * 10 + d) cs
    | none => none

/-- Parse a nonempty all-digit token. -/
def parseNatTok (l : List Char) : Option Nat :=
  match l with
  | [] => none
  | _ => parseNatAcc 0 l

/-- Parse an integer token with an optional leading minus sign. -/
def parseIntTok (l : List Char) : Option Int :=
  match l with
  | [] => none
  | c :: cs =>
    if c = '-' then (parseNatTok cs).map (fun n => -(n : Int))
    else (parseNatTok (c :: cs)).map (fun n => (n : Int))

/-- Join pieces with a separator character between consecutive pieces. -/
def joinSep (sep : Char) : List (List Char) → List Char
  | [] => []
  | [p] => p
  | p :: ps => p ++ sep :: joinSep sep ps

/-- Split a character list on a separator; `n` separators yield `n + 1`
pieces (pieces may be empty). -/
def splitOnChar (sep : Char) : List Char → List (List Char)
  | [] => [[]]
  | c :: cs =>
    match splitOnChar sep cs with
    | [] => [[]]
    | p :: ps => if c = sep then [] :: p :: ps else (c :: p) :: ps

/-- Split a piece at its first `=`; fails when there is none. -/
def splitAtEq : List Char → Option (List Char × List Char)
  | [] => none
  | c :: cs =>
    if c = '=' then some ([], cs)
    else (splitAtEq cs).map (fun p => (c :: p.1, p.2))

/-- Whether the second list begins with the first. -/
def listStartsWith : List Char → List Char → Bool
  | [], _ => true
  | _ :: _, [] => false
  | p :: ps, c :: cs => c == p && listStartsWith ps cs

/-- Remove a leading pattern, failing when it is not a prefix. -/
def dropPre : List Char → List Char → Option (List Char)
  | [], s => some s
  | _ :: _, [] => none
  | p :: ps, c :: cs => if c = p then dropPre ps cs else none

/-- RFC-5545 token of a frequency. -/
def freqName : Freq → List Char
  | .DAILY => "DAILY".data
  | .WEEKLY => "WEEKLY".data
  | .MONTHLY => "MONTHLY".data
  | .YEARLY => "YEARLY".data

/-- Parse a frequency token; any other token (including the library's
sub-daily ones, which the application does not support) fails. -/
def parseFreqTok (v : List Char) : Option Freq :=
  if v = "DAILY".data then some .DAILY
  else if v = "WEEKLY".data then some .WEEKLY
  else if v = "MONTHLY".data then some .MONTHLY
  else if v = "YEARLY".data then some .YEARLY
  else none

/-- RFC-5545 weekday token of index 0-6 (0 = Monday, as in the source). -/
def weekdayName (w : Nat) : List Char :=
  ((["MO", "TU", "WE", "TH", "FR", "SA", "SU"].getD w "XX") : String).data

/-- Parse a weekday token back to its index. -/
def parseWeekdayTok (v : List Char) : Option Nat :=
  if v = "MO".data then some 0
  else if v = "TU".data then some 1
  else if v = "WE".data then some 2
  else if v = "TH".data then some 3
  else if v = "FR".data then some 4
  else if v = "SA".data then some 5
  else if v = "SU".data then some 6
  else none

/-- Traverse a list with a fallible function, failing when any element
fails. -/
def mapMOpt (f : α → Option β) : List α → Option (List β)
  | [] => some []
  | a :: as =>
    match f a with
    | none => none
    | some b => (mapMOpt f as).map (fun bs => b :: bs)

/-- The key-value pieces of the canonical encoding of an options object,
in a fixed emission order. -/
def optsPieces (o : RRuleOpts) : List (List Char) :=
  ["FREQ=".data ++ freqName o.freq,
   "INTERVAL=".data ++ printNat o.interval]
  ++ (match o.count with | some c => ["COUNT=".data ++ printNat c] | none => [])
  ++ (match o.untilDate with | some u => ["UNTIL=".data ++ printNat u] | none => [])
  ++ (match o.byweekday with
      | some l => ["BYDAY=".data ++ joinSep ',' (l.map weekdayName)]
      | none => [])
  ++ (match o.bymonthday with
      | some l => ["BYMONTHDAY=".data ++ joinSep ',' (l.map printInt)]
      | none => [])

/-- Modelled from the spec: the library's canonical serialization
(`rrule.toString()` with the scheme prefix already removed, as the source
strips it). -/
def optsToString (o : RRuleOpts) : String := String.mk (joinSep ';' (optsPieces o))

/-- Partially assembled options during parsing. -/
structure PartialOpts where
  freq : Option Freq
  interval : Option Nat
  count : Option Nat
  untilDate : Option Nat
  byweekday : Option (List Nat)
  bymonthday : Option (List Int)
deriving DecidableEq, Repr

/-- The empty partial options. -/
def emptyPartial : PartialOpts := ⟨none, none, none, none, none, none⟩

/-- Record one parsed key-value pair; unknown keys or malformed values
fail. -/
def processKV (st : PartialOpts) (k v : List Char) : Option PartialOpts :=
  if k = "FREQ".data then
    (parseFreqTok v).map (fun f => { st with freq := some f })
  else if k = "INTERVAL".data then
    (parseNatTok v).map (fun n => { st with interval := some n })
  else if k = "COUNT".data then
    (parseNatTok v).map (fun n => { st with count := some n })
  else if k = "UNTIL".data then
    (parseNatTok v).map (fun n => { st with untilDate := some n })
  else if k = "BYDAY".data then
    (mapMOpt parseWeekdayTok (splitOnChar ',' v)).map (fun l => { st with byweekday := some l })
  else if k = "BYMONTHDAY".data then
    (mapMOpt parseIntTok (splitOnChar ',' v)).map (fun l => { st with bymonthday := some l })
  else none

/-- Consume the semicolon-separated pieces; a rule without a frequency is
structurally invalid, a missing interval defaults to 1 (the library's
default). -/
def parsePairs (st : PartialOpts) : List (List Char) → Option RRuleOpts
  | [] =>
    match st.freq with
    | none => none
    | some f =>
      some { freq := f, interval := st.interval.getD 1, count := st.count,
             untilDate := st.untilDate, byweekday := st.byweekday, bymonthday := st.bymonthday }
  | piece :: rest =>
    match splitAtEq piece with
    | none => none
    | some (k, v) =>
      match processKV st k v with
      | none => none
      | some st2 => parsePairs st2 rest

/-- Modelled from the spec: `RRule.fromString` — tolerates an optional
scheme prefix and fails (`none`) on structurally invalid text. -/
def fromString (s : String) : Option RRuleOpts :=
  let body :=
    match dropPre "RRULE:".data s.data with
    | some rest => rest
    | none => s.data
  parsePairs emptyPartial (splitOnChar ';' body)

/-- The prefixing step shared by every wrapper in the source file:
`rruleString.startsWith('RRULE:') ? rruleString : 'RRULE:' + rruleString`. -/
def withRRulePre (s : String) : String :=
  if listStartsWith "RRULE:".data s.data then s else "RRULE:" ++ s

/-- `generateRRule` of the source: assembles the options object —
`interval: rule.interval || 1`, `count` only when truthy, `until` only
when no count is set, the by-lists only when nonempty — and serializes
it. -/
def generateRRule (r : RepeatRule) : String :=
  let countSet : Bool := match r.count with | some c => c != 0 | none => false
  let o : RRuleOpts :=
    { freq := r.frequency,
      interval := if r.interval = 0 then 1 else r.interval,
      count := match r.count with | some c => if c = 0 then none else some c | none => none,
      untilDate := if countSet then none else r.untilDate,
      byweekday := match r.byWeekday with | some l => if l = [] then none else some l | none => none,
      bymonthday := match r.byMonthDay with | some l => if l = [] then none else some l | none => none }
  optsToString o

/-- The rule object `parseRRule` assembles from parsed options:
`interval || 1`, `count` only when truthy, the by-lists only when
nonempty. -/
def optsToRule (o : RRuleOpts) : RepeatRule :=
  { frequency := o.freq,
    interval := if o.interval = 0 then 1 else o.interval,
    count := match o.count with | some c => if c = 0 then none else some c | none => none,
    untilDate := o.untilDate,
    byWeekday := match o.byweekday with | some l => if l = [] then none else some l | none => none,
    byMonthDay := match o.bymonthday with | some l => if l = [] then none else some l | none => none }

/-- `parseRRule` of the source: add the prefix when missing, parse, build
the rule; a parse failure is returned as `none` (the source catches the
library's exception and returns null). -/
def parseRRule (s : String) : Option RepeatRule :=
  (fromString (withRRulePre s)).map optsToRule

/-- Weekday index (0 = Monday) of a day index; day 0 of the civil epoch
(0000-03-01) is a Wednesday. -/
def weekdayOf (d : Nat) : Nat := (d + 2) % 7

/-- Upper bound on the day span of one period of a frequency. -/
def periodLen : Freq → Nat
  | .DAILY => 1
  | .WEEKLY => 7
  | .MONTHLY => 31
  | .YEARLY => 366

/-- Whether a by-month-day list matches a civil date; a negative entry
counts from the end of the month (RFC-5545). -/
def monthDayMatches (l : List Int) (c : CivilDate) : Bool :=
  l.contains (c.day : Int) ||
  l.contains ((c.day : Int) - (daysInGregMonth c.year c.month : Int) - 1)

/-- Modelled from the spec (§4.1 expansion algorithm): whether a day is an
occurrence of the rule anchored at `startDay` — the day lies on a period
boundary multiple of `interval`, and matches the by-weekday/by-month-day
constraints when present (with the anchor's weekday/month-day as the
default). -/
def matchesDay (startDay : Nat) (o : RRuleOpts) (d : Nat) : Bool :=
  match o.freq with
  | .DAILY => (d - startDay) % o.interval == 0
  | .WEEKLY =>
    ((d - startDay) / 7) % o.interval == 0 &&
    (match o.byweekday with
     | some l => l.contains (weekdayOf d)
     | none => (d - startDay) % 7 == 0)
  | .MONTHLY =>
    let c := civilOfDay d
    let c0 := civilOfDay startDay
    ((c.year * 12 + c.month : Int) - (c0.year * 12 + c0.month : Int)) % (o.interval : Int) == 0 &&
    (match o.bymonthday with
     | some l => monthDayMatches l c
     | none => c.day == c0.day)
  | .YEARLY =>
    let c := civilOfDay d
    let c0 := civilOfDay startDay
    ((c.year : Int) - (c0.year : Int)) % (o.interval : Int) == 0 && c.month == c0.month &&
    (match o.bymonthday with
     | some l => monthDayMatches l c
     | none => c.day == c0.day)

/-- The ascending matching days within a search window of `horizon` days
from the anchor. -/
def ruleDays (startDay : Nat) (o : RRuleOpts) (horizon : Nat) : List Nat :=
  (List.range' startDay horizon).filter (fun d => matchesDay startDay o d)

/-- Occurrence date-times: each matching day at the anchor's time of
day. -/
def occStream (startMs : Nat) (o : RRuleOpts) (horizon : Nat) : List Nat :=
  (ruleDays (dayOf startMs) o horizon).map (fun d => d * msPerDay + startMs % msPerDay)

/-- Cut the stream at the until date (the library compares the occurrence
date-time against the until instant). -/
def applyUntil (o : RRuleOpts) (l : List Nat) : List Nat :=
  match o.untilDate with
  | some u => l.takeWhile (fun t => t ≤ u * msPerDay)
  | none => l

/-- Cut the stream at the occurrence count. -/
def applyCount (o : RRuleOpts) (l : List Nat) : List Nat :=
  match o.count with
  | some c => l.take c
  | none => l

/-- Search window for a capped expansion: enough periods for the cap. -/
def expandHorizon (o : RRuleOpts) (maxOcc : Nat) : Nat :=
  maxOcc * o.interval * periodLen o.freq + periodLen o.freq + 1

/-- Modelled from the spec: the library's `all((date, i) => i < max)` —
the rule's occurrence stream, count/until termination applied, first
`maxOcc` entries. -/
def expandOpts (startMs : Nat) (o : RRuleOpts) (maxOcc : Nat) : List Nat :=
  (applyCount o (applyUntil o (occStream startMs o (expandHorizon o maxOcc)))).take maxOcc

/-- `generateOccurrences` of the source: parse (prefixing when missing),
re-anchor at the given start, expand up to the cap; unparseable text
yields the empty list (the source catches and returns `[]`).  The source's
default cap is 365. -/
def generateOccurrences (startMs : Nat) (s : String) (maxOccurrences : Nat) : List Nat :=
  match fromString (withRRulePre s) with
  | none => []
  | some o => expandOpts startMs o maxOccurrences

/-- Search window for the uncapped `after` query: all periods of a
count-terminated rule, through the until date, or a modelling bound of one
century for unbounded rules. -/
def allHorizon (startDay : Nat) (o : RRuleOpts) : Nat :=
  match o.count with
  | some c => c * o.interval * periodLen o.freq + periodLen o.freq + 1
  | none =>
    match o.untilDate with
    | some u => u + 2 - startDay
    | none => 36525

/-- The full (termination-respecting, uncapped) occurrence list the
library's `after` iterates. -/
def expandAll (startMs : Nat) (o : RRuleOpts) : List Nat :=
  applyCount o (applyUntil o (occStream startMs o (allHorizon (dayOf startMs) o)))

/-- `getNextOccurrence` of the source, with the implicit `new Date()`
clock made an explicit `now` argument: the first occurrence at or after
`now` (`rrule.after(now, true)`), `none` when parsing fails or no such
occurrence exists. -/
def getNextOccurrence (startMs : Nat) (s : String) (now : Nat) : Option Nat :=
  match fromString (withRRulePre s) with
  | none => none
  | some o => (expandAll startMs o).find? (fun t => now ≤ t)

/-- `isDateInRRule` of the source: expand with the default cap of 365 and
compare both sides floored to local midnight (`setHours(0,0,0,0)`). -/
def isDateInRRule (date : Nat) (startDate : Nat) (s : String) : Bool :=
  let occurrences := generateOccurrences startDate s 365
  occurrences.any (fun occ => (occ / msPerDay) * msPerDay == (date / msPerDay) * msPerDay)

/-- Executable statement of the non-leap round-trip property at one day
index, used to settle the round-trip claim by evaluation over the table
range. -/
def roundtripOK (d : Nat) : Bool :=
  match getLunarOfDay d with
  | some l => decide (l.month < 0) || (lunarFromYmd l.year l.month l.day == some d)
  | none => true

/-!
Theorems.  First the lunar/solar conversion claims, then the
recurrence-rule claims.
-/

theorem msPerDay_pos : 0 < msPerDay := by decide

theorem dayOf_le_of_le_mul {t u : Nat} (h : t ≤ u * msPerDay) : dayOf t ≤ u := by
  have := Nat.div_le_div_right (c := msPerDay) h
  simpa [dayOf, Nat.mul_div_cancel _ msPerDay_pos] using this

/-- A day index the table serves lies in the table's range. -/
theorem getLunarOfDay_range {d : Nat} {l : LunarRaw} (h : getLunarOfDay d = some l) :
    739231 ≤ d ∧ d < 740323 := by
  unfold getLunarOfDay at h
  rcases hf : LUNAR_TABLE.find? (fun r => r.newYear ≤ d && d < r.newYear + monthsTotal r.months)
    with _ | r
  · rw [hf] at h; simp at h
  · have hpred := List.find?_some hf
    have hmem := List.mem_of_find?_eq_some hf
    simp only [LUNAR_TABLE, List.mem_cons, List.mem_singleton] at hmem
    rcases hmem with rfl | rfl | rfl | h3 <;>
      simp_all [monthsTotal] <;> omega

set_option maxRecDepth 10000 in
/-- The non-leap round-trip holds at every day of the table range. -/
theorem roundtripOK_range : ∀ k : Nat, k < 1092 → roundtripOK (739231 + k) = true := by decide

/-- Claim C1 is false as stated: the valid Gregorian date 2025-07-25 (day
index 739762, first day of the leap sixth lunar month) converts to lunar
(2025, month -6, day 1, leap) and feeding those fields back into
`lunarToSolar` yields day index 739733 (2025-06-26), not the original
date: the leap flag negates the already negative month, landing in the
regular sixth month. -/
theorem claim_C1_counterexample :
    ((solarToLunar (739762 * msPerDay)).bind
        (fun ld => lunarToSolar ld.year ld.month ld.day ld.isLeapMonth)) = some 739733 ∧
    dayOf (739762 * msPerDay) = 739762 ∧
    civilOfDay 739733 ≠ civilOfDay 739762 :=
  ⟨by decide, by decide, by decide⟩

/-- Claim C1 (amended): for every Gregorian date within the supported
lunar table range whose lunar month is not a leap month, converting with
`solarToLunar` and feeding the resulting year, month, day and leap flag
into `lunarToSolar` reproduces the original Gregorian calendar date. -/
theorem claim_C1_roundtrip (t : Nat) (ld : LunarDate)
    (h1 : solarToLunar t = some ld) (h2 : ld.isLeapMonth = false) :
    lunarToSolar ld.year ld.month ld.day ld.isLeapMonth = some (dayOf t) := by
  unfold solarToLunar at h1
  rcases hL : getLunarOfDay (dayOf t) with _ | l
  · rw [hL] at h1; simp at h1
  · rw [hL] at h1
    simp only [Option.map_some', Option.some.injEq] at h1
    have hrange := getLunarOfDay_range hL
    have hk := roundtripOK_range (dayOf t - 739231) (by omega)
    rw [show 739231 + (dayOf t - 739231) = dayOf t by omega] at hk
    unfold roundtripOK at hk
    rw [hL] at hk
    subst h1
    simp only at h2 ⊢
    simp [h2] at hk
    rw [h2]
    simpa [lunarToSolar] using hk

/-- Witness for the amended claim C1 at lunar new year's day 2024. -/
theorem claim_C1_roundtrip_witness :
    solarToLunar (739231 * msPerDay) =
      some { year := 2024, month := 1, day := 1, isLeapMonth := false } ∧
    lunarToSolar 2024 1 1 false = some (dayOf (739231 * msPerDay)) :=
  ⟨by decide,
   claim_C1_roundtrip (739231 * msPerDay)
     { year := 2024, month := 1, day := 1, isLeapMonth := false } (by decide) rfl⟩

/-- Claim C4 is contradicted by the code: on the Gregorian date 2025-07-25
(first day of the leap sixth lunar month of 2025) `solarToLunar` returns a
`month` field of -6 — the library's signed encoding copied verbatim —
although the `LunarDate` interface documents `month` as 1-12 with the leap
month distinguished only by the flag. -/
theorem claim_C4_month_range_bug :
    ∃ ld, solarToLunar (739762 * msPerDay) = some ld ∧
      ld.isLeapMonth = true ∧ ld.month = -6 ∧ ¬(1 ≤ ld.month ∧ ld.month ≤ 12) :=
  ⟨{ year := 2025, month := -6, day := 1, isLeapMonth := true },
   by decide, rfl, rfl, by decide⟩

/-- Claim C2 is contradicted by the code: day index 739968 (2026-02-16) is
lunar 2025-12-29, the last day of a 29-day lunar month 12, yet
`getFestivals` reports no 除夕 there — the festival table entry carries the
fixed day 30, so the matching loop never reaches the special case in a
short month; on the last day of a 30-day month 12 (day index 739584,
lunar 2024-12-30) 除夕 is reported. -/
theorem claim_C2_chuxi_bug :
    solarToLunar (739968 * msPerDay) =
      some { year := 2025, month := 12, day := 29, isLeapMonth := false } ∧
    getLunarMonthDays 2025 12 false = 29 ∧
    (∀ f ∈ getFestivals (739968 * msPerDay), f.name ≠ "除夕") ∧
    solarToLunar (739584 * msPerDay) =
      some { year := 2024, month := 12, day := 30, isLeapMonth := false } ∧
    getLunarMonthDays 2024 12 false = 30 ∧
    "除夕" ∈ (getFestivals (739584 * msPerDay)).map Festival.name :=
  ⟨by decide, by decide, by decide, by decide, by decide, by decide⟩

/-- Every festival produced by the solar-term pass is of solar-term
type. -/
theorem solarTermPass_types (t : Nat) (f : Festival) (hf : f ∈ solarTermPass t) :
    f.type = FestivalType.SOLAR_TERM := by
  unfold solarTermPass at hf
  split at hf
  · split at hf
    · rw [List.mem_singleton] at hf
      subst hf; rfl
    · exact absurd hf (List.not_mem_nil f)
  · exact absurd hf (List.not_mem_nil f)

/-- Every festival produced by the modern-holiday pass is of modern
type. -/
theorem modernPass_types (t : Nat) (f : Festival) (hf : f ∈ modernPass t) :
    f.type = FestivalType.MODERN := by
  unfold modernPass at hf
  simp only [List.mem_filterMap] at hf
  obtain ⟨mf, _, heq⟩ := hf
  split at heq
  · rw [Option.some.injEq] at heq
    subst heq; rfl
  · exact absurd heq (by simp)

/-- Claim C10: on a Gregorian date falling in a leap lunar month,
`getFestivals` returns no traditional lunar festival — the traditional
pass is suppressed by the leap flag — while the solar-term and modern
passes still contribute unchanged. -/
theorem claim_C10_leap_month (t : Nat) (ld : LunarDate)
    (h1 : solarToLunar t = some ld) (h2 : ld.isLeapMonth = true) :
    traditionalPass t = [] ∧
    getFestivals t = solarTermPass t ++ modernPass t ∧
    ∀ f ∈ getFestivals t, f.type ≠ FestivalType.TRADITIONAL := by
  unfold solarToLunar at h1
  rcases hL : getLunarOfDay (dayOf t) with _ | l
  · rw [hL] at h1; simp at h1
  · rw [hL] at h1
    simp only [Option.map_some', Option.some.injEq] at h1
    subst h1
    simp only at h2
    have htrad : traditionalPass t = [] := by
      unfold traditionalPass
      rw [hL]
      apply List.filterMap_eq_nil_iff.mpr
      intro f hf
      unfold tradFestMatch
      rw [h2]
      simp
    refine ⟨htrad, by unfold getFestivals; rw [htrad]; simp, ?_⟩
    intro f hf
    unfold getFestivals at hf
    rw [htrad] at hf
    simp only [List.nil_append, List.mem_append] at hf
    rcases hf with hf | hf
    · rw [solarTermPass_types t f hf]; simp
    · rw [modernPass_types t f hf]; simp

/-- Witness for claim C10 on the first day of the leap sixth month of
lunar 2025. -/
theorem claim_C10_witness :
    traditionalPass (739762 * msPerDay) = [] ∧
    getFestivals (739762 * msPerDay) =
      solarTermPass (739762 * msPerDay) ++ modernPass (739762 * msPerDay) ∧
    ∀ f ∈ getFestivals (739762 * msPerDay), f.type ≠ FestivalType.TRADITIONAL :=
  claim_C10_leap_month (739762 * msPerDay)
    { year := 2025, month := -6, day := 1, isLeapMonth := true } (by decide) rfl

/-- A hit in the cache returns the stored record and leaves the state
unchanged. -/
theorem getFullDateInfo_hit (st : LunarSvc) (t : Nat) (v : FullDateInfo)
    (h : findEntry (getCacheKey t) st.cache = some v) :
    getFullDateInfo st t = (v, st) := by
  simp only [getFullDateInfo]
  rw [h]

/-- After any call, the cache of the resulting state stores the returned
record under the date's key. -/
theorem getFullDateInfo_lookup (st : LunarSvc) (t : Nat) :
    findEntry (getCacheKey t) (getFullDateInfo st t).2.cache =
      some (getFullDateInfo st t).1 := by
  simp only [getFullDateInfo]
  rcases hE : findEntry (getCacheKey t) st.cache with _ | v <;> simp [findEntry, hE]

/-- Claim C9: two consecutive `getFullDateInfo` calls on the same date
return the same record, the second call leaves the state — including the
computation counter — unchanged (served from the cache), the cache key
depends only on the calendar day, and a second call with any date-time of
the same day is served from the same entry. -/
theorem claim_C9_cache (st : LunarSvc) (t u : Nat) (h : dayOf t = dayOf u) :
    (getFullDateInfo (getFullDateInfo st t).2 t).1 = (getFullDateInfo st t).1 ∧
    (getFullDateInfo (getFullDateInfo st t).2 t).2 = (getFullDateInfo st t).2 ∧
    (getFullDateInfo (getFullDateInfo st t).2 t).2.computeCount =
      (getFullDateInfo st t).2.computeCount ∧
    getCacheKey t = getCacheKey u ∧
    (getFullDateInfo (getFullDateInfo st t).2 u).1 = (getFullDateInfo st t).1 ∧
    (getFullDateInfo (getFullDateInfo st t).2 u).2 = (getFullDateInfo st t).2 := by
  have hkey : getCacheKey t = getCacheKey u := by
    unfold getCacheKey; rw [h]
  have hlook := getFullDateInfo_lookup st t
  have h2nd := getFullDateInfo_hit (getFullDateInfo st t).2 t _ hlook
  have hlooku : findEntry (getCacheKey u) (getFullDateInfo st t).2.cache =
      some (getFullDateInfo st t).1 := by rw [← hkey]; exact hlook
  have h3rd := getFullDateInfo_hit (getFullDateInfo st t).2 u _ hlooku
  rw [h2nd, h3rd]
  exact ⟨rfl, rfl, rfl, hkey, rfl, rfl⟩

/-- Witness for claim C9: an empty-cache service queried twice on
2025-04-04, the second time with a different time of day. -/
theorem claim_C9_witness :
    (getFullDateInfo (getFullDateInfo ⟨[], 0⟩ (739650 * msPerDay + 5000)).2
        (739650 * msPerDay + 5000)).1 =
      (getFullDateInfo ⟨[], 0⟩ (739650 * msPerDay + 5000)).1 ∧
    (getFullDateInfo (getFullDateInfo ⟨[], 0⟩ (739650 * msPerDay + 5000)).2
        (739650 * msPerDay + 5000)).2 =
      (getFullDateInfo ⟨[], 0⟩ (739650 * msPerDay + 5000)).2 ∧
    (getFullDateInfo (getFullDateInfo ⟨[], 0⟩ (739650 * msPerDay + 5000)).2
        (739650 * msPerDay + 5000)).2.computeCount =
      (getFullDateInfo ⟨[], 0⟩ (739650 * msPerDay + 5000)).2.computeCount ∧
    getCacheKey (739650 * msPerDay + 5000) = getCacheKey (739650 * msPerDay + 7777) ∧
    (getFullDateInfo (getFullDateInfo ⟨[], 0⟩ (739650 * msPerDay + 5000)).2
        (739650 * msPerDay + 7777)).1 =
      (getFullDateInfo ⟨[], 0⟩ (739650 * msPerDay + 5000)).1 ∧
    (getFullDateInfo (getFullDateInfo ⟨[], 0⟩ (739650 * msPerDay + 5000)).2
        (739650 * msPerDay + 7777)).2 =
      (getFullDateInfo ⟨[], 0⟩ (739650 * msPerDay + 5000)).2 :=
  claim_C9_cache ⟨[], 0⟩ (739650 * msPerDay + 5000) (739650 * msPerDay + 7777) (by decide)

/-- The occurrence stream is strictly ascending: matching days are a
filtered ascending range, mapped by a strictly monotone shift. -/
theorem occStream_sorted (startMs : Nat) (o : RRuleOpts) (h : Nat) :
    (occStream startMs o h).Pairwise (· < ·) := by
  unfold occStream ruleDays
  apply List.Pairwise.map
  · intro a b hab
    exact Nat.add_lt_add_right ((Nat.mul_lt_mul_right msPerDay_pos).mpr hab) _
  · exact List.Pairwise.filter _ (List.pairwise_lt_range' _ _)

/-- The until cut only removes elements. -/
theorem applyUntil_sublist (o : RRuleOpts) (l : List Nat) : List.Sublist (applyUntil o l) l := by
  unfold applyUntil
  split
  · exact List.takeWhile_sublist _
  · exact List.Sublist.refl l

/-- The count cut only removes elements. -/
theorem applyCount_sublist (o : RRuleOpts) (l : List Nat) : List.Sublist (applyCount o l) l := by
  unfold applyCount
  split
  · exact List.take_sublist _ _
  · exact List.Sublist.refl l

/-- The full terminated occurrence list is strictly ascending. -/
theorem expandAll_sorted (startMs : Nat) (o : RRuleOpts) :
    (expandAll startMs o).Pairwise (· < ·) := by
  unfold expandAll
  exact List.Pairwise.sublist
    ((applyCount_sublist _ _).trans (applyUntil_sublist _ _))
    (occStream_sorted _ _ _)

/-- A `find?` hit on a strictly ascending list is the least element
satisfying the predicate. -/
theorem find?_min_of_sorted {p : Nat → Bool} (l : List Nat) :
    l.Pairwise (· < ·) → ∀ d, l.find? p = some d → ∀ e ∈ l, p e = true → d ≤ e := by
  induction l with
  | nil => intro _ d hf; simp at hf
  | cons a l ih =>
    intro hp d hf e he hpe
    rcases List.pairwise_cons.mp hp with ⟨ha, hl⟩
    by_cases hpa : p a = true
    · rw [List.find?_cons_of_pos _ hpa, Option.some.injEq] at hf
      subst hf
      rcases List.mem_cons.mp he with rfl | he2
      · exact Nat.le_refl _
      · exact Nat.le_of_lt (ha e he2)
    · rw [List.find?_cons_of_neg _ (by simpa using hpa)] at hf
      rcases List.mem_cons.mp he with rfl | he2
      · exact absurd hpe hpa
      · exact ih hl d hf e he2 hpe

/-- Membership in the until-cut list bounds the element by the until
instant. -/
theorem mem_applyUntil_le {o : RRuleOpts} {u : Nat} (hu : o.untilDate = some u)
    {l : List Nat} {t : Nat} (ht : t ∈ applyUntil o l) : t ≤ u * msPerDay := by
  unfold applyUntil at ht
  rw [hu] at ht
  replace ht : t ∈ l.takeWhile (fun t => decide (t ≤ u * msPerDay)) := ht
  have hall := List.all_takeWhile (l := l) (p := fun t => decide (t ≤ u * msPerDay))
  rw [List.all_eq_true] at hall
  simpa using hall t ht

/-- Unfolding `generateOccurrences` on successfully parsed text. -/
theorem generateOccurrences_eq (startMs N : Nat) (s : String) (o : RRuleOpts)
    (hF : fromString (withRRulePre s) = some o) :
    generateOccurrences startMs s N =
      (applyCount o (applyUntil o (occStream startMs o (expandHorizon o N)))).take N := by
  unfold generateOccurrences
  rw [hF]
  rfl

/-- Claim C6: the expansion cap is always honored — never more than `N`
entries; never more than `count` entries when a count termination is
parsed; no entry past the until date when an until termination is
parsed. -/
theorem claim_C6_bounds (startMs N : Nat) (s : String) :
    (generateOccurrences startMs s N).length ≤ N ∧
    ∀ o, fromString (withRRulePre s) = some o →
      (∀ c, o.count = some c → (generateOccurrences startMs s N).length ≤ c) ∧
      (∀ u, o.untilDate = some u → ∀ t ∈ generateOccurrences startMs s N, dayOf t ≤ u) := by
  rcases hF : fromString (withRRulePre s) with _ | o
  · constructor
    · unfold generateOccurrences
      rw [hF]
      simp
    · intro o ho
      exact absurd ho (by simp)
  · rw [generateOccurrences_eq startMs N s o hF]
    constructor
    · exact List.length_take_le _ _
    · intro o2 ho2
      injection ho2 with ho2
      subst ho2
      constructor
      · intro c hc
        simp only [applyCount, hc]
        rw [List.length_take, List.length_take]
        omega
      · intro u hu t ht
        have hsub : List.Sublist
            ((applyCount o (applyUntil o (occStream startMs o (expandHorizon o N)))).take N)
            (applyUntil o (occStream startMs o (expandHorizon o N))) :=
          (List.take_sublist _ _).trans (applyCount_sublist _ _)
        exact dayOf_le_of_le_mul (mem_applyUntil_le hu (hsub.subset ht))

/-- Witness for claim C6 on a daily rule carrying both terminations. -/
theorem claim_C6_witness :
    (generateOccurrences (100 * msPerDay) "FREQ=DAILY;COUNT=2;UNTIL=105" 3).length ≤ 3 ∧
    (generateOccurrences (100 * msPerDay) "FREQ=DAILY;COUNT=2;UNTIL=105" 3).length ≤ 2 ∧
    ∀ t ∈ generateOccurrences (100 * msPerDay) "FREQ=DAILY;COUNT=2;UNTIL=105" 3,
      dayOf t ≤ 105 :=
  ⟨(claim_C6_bounds (100 * msPerDay) 3 "FREQ=DAILY;COUNT=2;UNTIL=105").1,
   (((claim_C6_bounds (100 * msPerDay) 3 "FREQ=DAILY;COUNT=2;UNTIL=105").2
      { freq := .DAILY, interval := 1, count := some 2, untilDate := some 105,
        byweekday := none, bymonthday := none } (by decide)).1 2 rfl),
   (((claim_C6_bounds (100 * msPerDay) 3 "FREQ=DAILY;COUNT=2;UNTIL=105").2
      { freq := .DAILY, interval := 1, count := some 2, untilDate := some 105,
        byweekday := none, bymonthday := none } (by decide)).2 105 rfl)⟩

/-- Claim C5 is false as stated: the source's `getNextOccurrence` reads the
current clock (`new Date()`), which is not among its declared inputs — two
calls with identical anchor start and rule text give different results at
different clock instants (here: during the rule's lifetime vs after its
count termination has passed). -/
theorem claim_C5_counterexample :
    getNextOccurrence (100 * msPerDay) "FREQ=DAILY;COUNT=2" (100 * msPerDay + 5) ≠
      getNextOccurrence (100 * msPerDay) "FREQ=DAILY;COUNT=2" (300 * msPerDay) := by
  decide

/-- Claim C5 (amended): with the clock made an explicit `now` input,
`getNextOccurrence` returns the earliest generated occurrence at or after
`now` — any returned occurrence is at or after `now`, belongs to the
rule's terminated occurrence list, and is least among those at or after
`now` — and returns `none` whenever every occurrence of the terminated
rule lies before `now`. -/
theorem claim_C5_nextOccurrence (startMs now : Nat) (s : String) :
    (∀ d, getNextOccurrence startMs s now = some d →
        now ≤ d ∧
        ∀ o, fromString (withRRulePre s) = some o →
          d ∈ expandAll startMs o ∧
          ∀ e ∈ expandAll startMs o, now ≤ e → d ≤ e) ∧
    (∀ o, fromString (withRRulePre s) = some o →
        (∀ e ∈ expandAll startMs o, e < now) →
        getNextOccurrence startMs s now = none) := by
  constructor
  · intro d hd
    unfold getNextOccurrence at hd
    rcases hF : fromString (withRRulePre s) with _ | o
    · rw [hF] at hd
      exact absurd hd (by simp)
    · rw [hF] at hd
      replace hd : (expandAll startMs o).find? (fun t => decide (now ≤ t)) = some d := hd
      have hmem := List.mem_of_find?_eq_some hd
      have hp := List.find?_some hd
      refine ⟨by simpa using hp, ?_⟩
      intro o2 ho2
      injection ho2 with ho2
      subst ho2
      refine ⟨hmem, ?_⟩
      intro e he hne
      exact find?_min_of_sorted _ (expandAll_sorted _ _) d hd e he (by simpa using hne)
  · intro o ho hall
    unfold getNextOccurrence
    rw [ho]
    have : (expandAll startMs o).find? (fun t => decide (now ≤ t)) = none := by
      rw [List.find?_eq_none]
      intro x hx
      simp only [decide_eq_true_eq]
      exact Nat.not_le.mpr (hall x hx)
    exact this

/-- Witness for the amended claim C5: a two-occurrence daily rule queried
between its occurrences returns the second one, with minimality. -/
theorem claim_C5_witness :
    100 * msPerDay + 5 ≤ 101 * msPerDay ∧
    ∀ o, fromString (withRRulePre "FREQ=DAILY;COUNT=2") = some o →
      101 * msPerDay ∈ expandAll (100 * msPerDay) o ∧
      ∀ e ∈ expandAll (100 * msPerDay) o, 100 * msPerDay + 5 ≤ e → 101 * msPerDay ≤ e :=
  (claim_C5_nextOccurrence (100 * msPerDay) (100 * msPerDay + 5) "FREQ=DAILY;COUNT=2").1
    (101 * msPerDay) (by decide)

/-- Claim C7: `isDateInRRule` is true exactly when some entry of the
default-cap expansion falls on the same calendar day as the queried date
(time of day ignored on both sides), and consequently every expanded
entry is itself included. -/
theorem claim_C7_membership (d startMs : Nat) (s : String) :
    (isDateInRRule d startMs s = true ↔
      ∃ t ∈ generateOccurrences startMs s 365, dayOf t = dayOf d) ∧
    ∀ t ∈ generateOccurrences startMs s 365, isDateInRRule t startMs s = true := by
  have key : ∀ a b : Nat,
      ((a / msPerDay * msPerDay == b / msPerDay * msPerDay) = true) ↔ dayOf a = dayOf b := by
    intro a b
    rw [beq_iff_eq]
    unfold dayOf
    constructor
    · intro h
      exact Nat.eq_of_mul_eq_mul_right msPerDay_pos h
    · intro h
      rw [h]
  constructor
  · simp only [isDateInRRule]
    rw [List.any_eq_true]
    constructor
    · rintro ⟨t, ht, hp⟩
      exact ⟨t, ht, (key t d).mp hp⟩
    · rintro ⟨t, ht, hp⟩
      exact ⟨t, ht, (key t d).mpr hp⟩
  · intro t ht
    simp only [isDateInRRule]
    rw [List.any_eq_true]
    exact ⟨t, ht, (key t t).mpr rfl⟩

/-- Witness for claim C7: a date-time on the third day of a daily rule is
included whatever its time of day; the expanded entry itself is
included. -/
theorem claim_C7_witness :
    isDateInRRule (102 * msPerDay + 999) (100 * msPerDay) "FREQ=DAILY;COUNT=5" = true ∧
    isDateInRRule (102 * msPerDay) (100 * msPerDay) "FREQ=DAILY;COUNT=5" = true :=
  ⟨(claim_C7_membership (102 * msPerDay + 999) (100 * msPerDay) "FREQ=DAILY;COUNT=5").1.mpr
     ⟨102 * msPerDay, by decide, by decide⟩,
   (claim_C7_membership (102 * msPerDay) (100 * msPerDay) "FREQ=DAILY;COUNT=5").2
     (102 * msPerDay) (by decide)⟩

/-- A list starts with itself followed by anything. -/
theorem listStartsWith_same : ∀ (p s : List Char), listStartsWith p (p ++ s) = true
  | [], s => rfl
  | c :: p, s => by simp [listStartsWith, listStartsWith_same p s]

/-- Dropping a pattern from itself followed by anything yields the
remainder. -/
theorem dropPre_same : ∀ (p s : List Char), dropPre p (p ++ s) = some s
  | [], s => rfl
  | c :: p, s => by simp [dropPre, dropPre_same p s]

/-- Claim C8: `parseRRule` is total — it accepts text with or without the
"RRULE:" prefix, returns `none` (rather than throwing) on unrecognized
frequency tokens, malformed values, and structurally invalid text, and
`generateOccurrences` returns the empty list on any unparseable rule
text. -/
theorem claim_C8_parse_totality :
    (∀ s : String, listStartsWith "RRULE:".data s.data = false →
        parseRRule ("RRULE:" ++ s) = parseRRule s) ∧
    (∀ s : String, fromString (withRRulePre s) = none → parseRRule s = none) ∧
    parseRRule "FREQ=BOGUS" = none ∧
    parseRRule "FREQ=DAILY;COUNT=oops" = none ∧
    parseRRule "justnonsense" = none ∧
    parseRRule "FREQ=DAILY" =
      some { frequency := .DAILY, interval := 1, count := none, untilDate := none,
             byWeekday := none, byMonthDay := none } ∧
    parseRRule "RRULE:FREQ=DAILY" =
      some { frequency := .DAILY, interval := 1, count := none, untilDate := none,
             byWeekday := none, byMonthDay := none } ∧
    (∀ (startMs N : Nat) (s : String), fromString (withRRulePre s) = none →
        generateOccurrences startMs s N = []) := by
  refine ⟨?_, ?_, by decide, by decide, by decide, by decide, by decide, ?_⟩
  · intro s h
    have hc : listStartsWith "RRULE:".data ("RRULE:" ++ s).data = true := by
      rw [String.data_append]
      exact listStartsWith_same _ _
    have h1 : withRRulePre ("RRULE:" ++ s) = "RRULE:" ++ s := by
      unfold withRRulePre
      exact if_pos hc
    have h2 : withRRulePre s = "RRULE:" ++ s := by
      unfold withRRulePre
      exact if_neg (by rw [h]; simp)
    unfold parseRRule
    rw [h1, h2]
  · intro s h
    unfold parseRRule
    rw [h]
    rfl
  · intro startMs N s h
    unfold generateOccurrences
    rw [h]

/-- Witness for claim C8: prefix tolerance at a concrete rule, empty
expansion of concrete junk text. -/
theorem claim_C8_witness :
    parseRRule ("RRULE:" ++ "FREQ=MONTHLY") = parseRRule "FREQ=MONTHLY" ∧
    generateOccurrences 0 "???" 7 = [] :=
  ⟨claim_C8_parse_totality.1 "FREQ=MONTHLY" (by decide),
   claim_C8_parse_totality.2.2.2.2.2.2.2 0 7 "???" (by decide)⟩

/-- Digit characters decode back to their value. -/
theorem digitVal_natDigitChar : ∀ d, d < 10 → digitVal (natDigitChar d) = some d := by decide

/-- Digit characters lie in the ASCII digit range. -/
theorem natDigitChar_range : ∀ d, d < 10 →
    48 ≤ (natDigitChar d).toNat ∧ (natDigitChar d).toNat ≤ 57 := by decide

/-- A printed number is never empty. -/
theorem printNat_ne_nil (n : Nat) : printNat n ≠ [] := by
  rw [printNat]
  split <;> simp

/-- Every character of a printed number is an ASCII digit. -/
theorem printNat_digits (n : Nat) : ∀ c ∈ printNat n, 48 ≤ c.toNat ∧ c.toNat ≤ 57 := by
  induction n using Nat.strong_induction_on with
  | _ n ih =>
    intro c hc
    rw [printNat] at hc
    split at hc
    · next h =>
      rw [List.mem_singleton] at hc
      subst hc
      exact natDigitChar_range n h
    · next h =>
      rcases List.mem_append.mp hc with h1 | h1
      · exact ih (n / 10) (Nat.div_lt_self (by omega) (by omega)) c h1
      · rw [List.mem_singleton] at h1
        subst h1
        exact natDigitChar_range (n % 10) (by omega)

/-- Digit folding distributes over list append. -/
theorem parseNatAcc_append (acc : Nat) (xs ys : List Char) :
    parseNatAcc acc (xs ++ ys) =
      match parseNatAcc acc xs with
      | some a => parseNatAcc a ys
      | none => none := by
  induction xs generalizing acc with
  | nil => rfl
  | cons c cs ih =>
    rw [List.cons_append]
    show (match digitVal c with
          | some d => parseNatAcc (acc * 10 + d) (cs ++ ys)
          | none => none) =
        match (match digitVal c with
               | some d => parseNatAcc (acc * 10 + d) cs
               | none => none) with
        | some a => parseNatAcc a ys
        | none => none
    rcases digitVal c with _ | d
    · rfl
    · exact ih (acc * 10 + d)

/-- Folding the digits of a printed number onto an accumulator. -/
theorem parseNatAcc_printNat (n : Nat) :
    ∀ acc, parseNatAcc acc (printNat n) = some (acc * 10 ^ (printNat n).length + n) := by
  induction n using Nat.strong_induction_on with
  | _ n ih =>
    intro acc
    by_cases h : n < 10
    · rw [printNat, dif_pos h]
      show parseNatAcc acc [natDigitChar n] = some (acc * 10 ^ 1 + n)
      show (match digitVal (natDigitChar n) with
            | some d => parseNatAcc (acc * 10 + d) []
            | none => none) = some (acc * 10 ^ 1 + n)
      rw [digitVal_natDigitChar n h]
      show some (acc * 10 + n) = some (acc * 10 ^ 1 + n)
      rw [pow_one]
    · rw [printNat, dif_neg h]
      rw [parseNatAcc_append]
      rw [ih (n / 10) (Nat.div_lt_self (by omega) (by omega)) acc]
      show parseNatAcc (acc * 10 ^ (printNat (n / 10)).length + n / 10) [natDigitChar (n % 10)] =
        some (acc * 10 ^ (printNat (n / 10) ++ [natDigitChar (n % 10)]).length + n)
      show (match digitVal (natDigitChar (n % 10)) with
            | some d => parseNatAcc ((acc * 10 ^ (printNat (n / 10)).length + n / 10) * 10 + d) []
            | none => none) =
        some (acc * 10 ^ (printNat (n / 10) ++ [natDigitChar (n % 10)]).length + n)
      rw [digitVal_natDigitChar (n % 10) (by omega)]
      show some ((acc * 10 ^ (printNat (n / 10)).length + n / 10) * 10 + n % 10) = _
      rw [List.length_append, List.length_singleton]
      congr 1
      calc (acc * 10 ^ (printNat (n / 10)).length + n / 10) * 10 + n % 10
          = acc * (10 ^ (printNat (n / 10)).length * 10) + (10 * (n / 10) + n % 10) := by ring
        _ = acc * 10 ^ ((printNat (n / 10)).length + 1) + n := by
            rw [Nat.div_add_mod, pow_succ]

/-- A printed number parses back to itself. -/
theorem parseNatTok_printNat (n : Nat) : parseNatTok (printNat n) = some n := by
  have h := parseNatAcc_printNat n 0
  rw [Nat.zero_mul, Nat.zero_add] at h
  rcases hc : printNat n with _ | ⟨c, cs⟩
  · exact absurd hc (printNat_ne_nil n)
  · show parseNatAcc 0 (c :: cs) = some n
    rw [← hc]
    exact h

/-- A printed integer parses back to itself. -/
theorem parseIntTok_printInt (i : Int) : parseIntTok (printInt i) = some i := by
  unfold printInt
  split
  · next h =>
    show (if ('-' : Char) = '-' then (parseNatTok (printNat i.natAbs)).map (fun n => -(n : Int))
          else (parseNatTok ('-' :: printNat i.natAbs)).map (fun n => (n : Int))) = some i
    rw [if_pos rfl, parseNatTok_printNat]
    show some (-(i.natAbs : Int)) = some i
    congr 1
    omega
  · next h =>
    rcases hc : printNat i.toNat with _ | ⟨c, cs⟩
    · exact absurd hc (printNat_ne_nil _)
    · have hd : 48 ≤ c.toNat ∧ c.toNat ≤ 57 :=
        printNat_digits i.toNat c (by rw [hc]; exact List.mem_cons_self c cs)
      have hne : ¬(c = '-') := by
        intro hEq
        rw [hEq] at hd
        exact absurd hd (by decide)
      show (if c = '-' then (parseNatTok cs).map (fun n => -(n : Int))
            else (parseNatTok (c :: cs)).map (fun n => (n : Int))) = some i
      rw [if_neg hne, ← hc, parseNatTok_printNat]
      show some ((i.toNat : Int)) = some i
      congr 1
      omega

/-- Splitting never yields an empty piece list. -/
theorem splitOnChar_ne_nil (sep : Char) (l : List Char) : splitOnChar sep l ≠ [] := by
  induction l with
  | nil => simp [splitOnChar]
  | cons c cs ih =>
    rw [splitOnChar]
    rcases h : splitOnChar sep cs with _ | ⟨p, ps⟩
    · simp
    · show ¬(if c = sep then [] :: p :: ps else (c :: p) :: ps) = []
      split <;> simp

/-- A separator-free list splits into the single piece. -/
theorem splitOnChar_of_not_mem (sep : Char) (l : List Char) (h : sep ∉ l) :
    splitOnChar sep l = [l] := by
  induction l with
  | nil => rfl
  | cons c cs ih =>
    have hcne : ¬(c = sep) := fun hEq => h (hEq ▸ List.mem_cons_self c cs)
    have hrest : sep ∉ cs := fun hm => h (List.mem_cons_of_mem c hm)
    rw [splitOnChar, ih hrest]
    show (if c = sep then [] :: cs :: [] else (c :: cs) :: ([] : List (List Char))) = [c :: cs]
    rw [if_neg hcne]

/-- Splitting a separator-free piece glued onto a split suffix. -/
theorem splitOnChar_append (sep : Char) :
    ∀ (x y : List Char), sep ∉ x →
      splitOnChar sep (x ++ sep :: y) = x :: splitOnChar sep y := by
  intro x
  induction x with
  | nil =>
    intro y _
    rw [List.nil_append, splitOnChar]
    rcases h : splitOnChar sep y with _ | ⟨p, ps⟩
    · exact absurd h (splitOnChar_ne_nil sep y)
    · simp
  | cons c cs ih =>
    intro y h
    have hcne : ¬(c = sep) := fun hEq => h (hEq ▸ List.mem_cons_self c cs)
    have hrest : sep ∉ cs := fun hm => h (List.mem_cons_of_mem c hm)
    rw [List.cons_append, splitOnChar, ih y hrest]
    show (if c = sep then [] :: cs :: splitOnChar sep y
          else (c :: cs) :: splitOnChar sep y) = (c :: cs) :: splitOnChar sep y
    rw [if_neg hcne]

/-- Splitting inverts joining when every piece is separator-free and the
piece list is nonempty. -/
theorem splitOnChar_joinSep (sep : Char) :
    ∀ (ps : List (List Char)), ps ≠ [] → (∀ p ∈ ps, sep ∉ p) →
      splitOnChar sep (joinSep sep ps) = ps := by
  intro ps
  induction ps with
  | nil => intro h; exact absurd rfl h
  | cons p ps ih =>
    intro _ hall
    rcases ps with _ | ⟨q, qs⟩
    · show splitOnChar sep p = [p]
      exact splitOnChar_of_not_mem sep p (hall p (List.mem_singleton_self p))
    · show splitOnChar sep (p ++ sep :: joinSep sep (q :: qs)) = p :: q :: qs
      rw [splitOnChar_append sep p _ (hall p (List.mem_cons_self p _))]
      rw [ih (by simp) (fun r hr => hall r (List.mem_cons_of_mem p hr))]

/-- Splitting a key-value piece at its first equals sign. -/
theorem splitAtEq_append : ∀ (k v : List Char), ('=' : Char) ∉ k →
    splitAtEq (k ++ '=' :: v) = some (k, v) := by
  intro k
  induction k with
  | nil =>
    intro v _
    rw [List.nil_append, splitAtEq, if_pos rfl]
  | cons c cs ih =>
    intro v h
    have hcne : ¬(c = '=') := fun hEq => h (hEq ▸ List.mem_cons_self c cs)
    have hrest : ('=' : Char) ∉ cs := fun hm => h (List.mem_cons_of_mem c hm)
    rw [List.cons_append, splitAtEq, if_neg hcne, ih v hrest]
    rfl

/-- A character is not in an append when in neither part. -/
theorem not_mem_append_chars {c : Char} {x y : List Char} (hx : c ∉ x) (hy : c ∉ y) :
    c ∉ x ++ y := by
  intro hm
  rcases List.mem_append.mp hm with h | h
  exacts [hx h, hy h]

/-- The semicolon is not a digit. -/
theorem printNat_no_semi (n : Nat) : (';' : Char) ∉ printNat n := by
  intro hm
  exact absurd (printNat_digits n ';' hm) (by decide)

/-- The comma is not a digit. -/
theorem printNat_no_comma (n : Nat) : (',' : Char) ∉ printNat n := by
  intro hm
  exact absurd (printNat_digits n ',' hm) (by decide)

/-- Characters of a printed integer: the sign or a digit. -/
theorem printInt_chars (i : Int) (c : Char) (hm : c ∈ printInt i) :
    c = '-' ∨ (48 ≤ c.toNat ∧ c.toNat ≤ 57) := by
  unfold printInt at hm
  split at hm
  · rcases List.mem_cons.mp hm with rfl | hm2
    · exact Or.inl rfl
    · exact Or.inr (printNat_digits _ c hm2)
  · exact Or.inr (printNat_digits _ c hm)

/-- The semicolon never appears in a printed integer. -/
theorem printInt_no_semi (i : Int) : (';' : Char) ∉ printInt i := by
  intro hm
  rcases printInt_chars i ';' hm with h | h
  · exact absurd h (by decide)
  · exact absurd h (by decide)

/-- The comma never appears in a printed integer. -/
theorem printInt_no_comma (i : Int) : (',' : Char) ∉ printInt i := by
  intro hm
  rcases printInt_chars i ',' hm with h | h
  · exact absurd h (by decide)
  · exact absurd h (by decide)

/-- A printed integer is never empty. -/
theorem printInt_ne_nil (i : Int) : printInt i ≠ [] := by
  unfold printInt
  split
  · simp
  · exact printNat_ne_nil _

/-- Frequency tokens contain no semicolon. -/
theorem freqName_no_semi (f : Freq) : (';' : Char) ∉ freqName f := by
  cases f <;> decide

/-- Frequency tokens parse back to their frequency. -/
theorem parseFreqTok_freqName (f : Freq) : parseFreqTok (freqName f) = some f := by
  cases f <;> rfl

/-- Weekday tokens of valid indices: parseable, nonempty, free of commas
and semicolons. -/
theorem weekdayName_props : ∀ w, w < 7 →
    parseWeekdayTok (weekdayName w) = some w ∧ weekdayName w ≠ [] ∧
    (',' : Char) ∉ weekdayName w ∧ (';' : Char) ∉ weekdayName w := by decide

/-- A separator stays absent from a join of separator-free pieces when it
differs from the joining separator. -/
theorem joinSep_not_mem {c sep : Char} (hcs : ¬(c = sep)) :
    ∀ (ps : List (List Char)), (∀ p ∈ ps, c ∉ p) → c ∉ joinSep sep ps
  | [], _ => by simp [joinSep]
  | [p], h => by simpa [joinSep] using h p (List.mem_singleton_self p)
  | p :: q :: qs, h => by
    show c ∉ p ++ sep :: joinSep sep (q :: qs)
    intro hm
    rcases List.mem_append.mp hm with h1 | h1
    · exact h p (List.mem_cons_self _ _) h1
    · rcases List.mem_cons.mp h1 with rfl | h2
      · exact hcs rfl
      · exact joinSep_not_mem hcs (q :: qs)
          (fun r hr => h r (List.mem_cons_of_mem p hr)) h2

/-- Weekday name lists traverse back to the index list. -/
theorem mapMOpt_weekdayNames : ∀ (l : List Nat), (∀ w ∈ l, w < 7) →
    mapMOpt parseWeekdayTok (l.map weekdayName) = some l := by
  intro l
  induction l with
  | nil => intro _; rfl
  | cons w ws ih =>
    intro h
    rw [List.map_cons, mapMOpt, (weekdayName_props w (h w (List.mem_cons_self w ws))).1,
        ih (fun x hx => h x (List.mem_cons_of_mem w hx))]
    rfl

/-- Printed integer lists traverse back to the integer list. -/
theorem mapMOpt_printInts : ∀ (l : List Int),
    mapMOpt parseIntTok (l.map printInt) = some l := by
  intro l
  induction l with
  | nil => rfl
  | cons i is ih =>
    rw [List.map_cons, mapMOpt, parseIntTok_printInt, ih]
    rfl

/-- Processing the FREQ key. -/
theorem processKV_FREQ (st : PartialOpts) (f : Freq) :
    processKV st "FREQ".data (freqName f) = some { st with freq := some f } := by
  have h1 : processKV st "FREQ".data (freqName f) =
      (parseFreqTok (freqName f)).map (fun f => { st with freq := some f }) := rfl
  rw [h1, parseFreqTok_freqName]
  rfl

/-- Processing the INTERVAL key. -/
theorem processKV_INTERVAL (st : PartialOpts) (n : Nat) :
    processKV st "INTERVAL".data (printNat n) = some { st with interval := some n } := by
  have h1 : processKV st "INTERVAL".data (printNat n) =
      (parseNatTok (printNat n)).map (fun n => { st with interval := some n }) := rfl
  rw [h1, parseNatTok_printNat]
  rfl

/-- Processing the COUNT key. -/
theorem processKV_COUNT (st : PartialOpts) (n : Nat) :
    processKV st "COUNT".data (printNat n) = some { st with count := some n } := by
  have h1 : processKV st "COUNT".data (printNat n) =
      (parseNatTok (printNat n)).map (fun n => { st with count := some n }) := rfl
  rw [h1, parseNatTok_printNat]
  rfl

/-- Processing the UNTIL key. -/
theorem processKV_UNTIL (st : PartialOpts) (n : Nat) :
    processKV st "UNTIL".data (printNat n) = some { st with untilDate := some n } := by
  have h1 : processKV st "UNTIL".data (printNat n) =
      (parseNatTok (printNat n)).map (fun n => { st with untilDate := some n }) := rfl
  rw [h1, parseNatTok_printNat]
  rfl

/-- Processing the BYDAY key on a valid weekday list. -/
theorem processKV_BYDAY (st : PartialOpts) (l : List Nat)
    (h7 : ∀ w ∈ l, w < 7) (hne : l ≠ []) :
    processKV st "BYDAY".data (joinSep ',' (l.map weekdayName)) =
      some { st with byweekday := some l } := by
  have h1 : processKV st "BYDAY".data (joinSep ',' (l.map weekdayName)) =
      (mapMOpt parseWeekdayTok (splitOnChar ',' (joinSep ',' (l.map weekdayName)))).map
        (fun l => { st with byweekday := some l }) := rfl
  rw [h1]
  rw [splitOnChar_joinSep ',' (l.map weekdayName) (by simpa using hne)
      (by
        intro p hp
        rcases List.mem_map.mp hp with ⟨w, hw, rfl⟩
        exact (weekdayName_props w (h7 w hw)).2.2.1)]
  rw [mapMOpt_weekdayNames l h7]
  rfl

/-- Processing the BYMONTHDAY key on a nonempty integer list. -/
theorem processKV_BYMONTHDAY (st : PartialOpts) (l : List Int) (hne : l ≠ []) :
    processKV st "BYMONTHDAY".data (joinSep ',' (l.map printInt)) =
      some { st with bymonthday := some l } := by
  have h1 : processKV st "BYMONTHDAY".data (joinSep ',' (l.map printInt)) =
      (mapMOpt parseIntTok (splitOnChar ',' (joinSep ',' (l.map printInt)))).map
        (fun l => { st with bymonthday := some l }) := rfl
  rw [h1]
  rw [splitOnChar_joinSep ',' (l.map printInt) (by simpa using hne)
      (by
        intro p hp
        rcases List.mem_map.mp hp with ⟨i, _, rfl⟩
        exact printInt_no_comma i)]
  rw [mapMOpt_printInts l]
  rfl

/-- One step of piece consumption: a well-formed key-value piece advances
the partial state. -/
theorem parsePairs_cons (st st2 : PartialOpts) (k v : List Char) (rest : List (List Char))
    (hkv : processKV st k v = some st2) (hk : ('=' : Char) ∉ k) :
    parsePairs st ((k ++ '=' :: v) :: rest) = parsePairs st2 rest := by
  rw [parsePairs, splitAtEq_append k v hk]
  show (match processKV st k v with
        | none => none
        | some st2 => parsePairs st2 rest) = parsePairs st2 rest
  rw [hkv]

/-- Consuming the optional COUNT piece. -/
theorem parsePairs_count_piece (st : PartialOpts) (cnt : Option Nat) (rest : List (List Char)) :
    parsePairs st ((match cnt with
                    | some c => ["COUNT=".data ++ printNat c]
                    | none => []) ++ rest) =
      parsePairs { st with count := cnt.or st.count } rest := by
  rcases cnt with _ | c
  · rfl
  · show parsePairs st (("COUNT".data ++ '=' :: printNat c) :: rest) = _
    rw [parsePairs_cons st _ _ _ rest (processKV_COUNT st c) (by decide)]
    rfl

/-- Consuming the optional UNTIL piece. -/
theorem parsePairs_until_piece (st : PartialOpts) (unt : Option Nat) (rest : List (List Char)) :
    parsePairs st ((match unt with
                    | some u => ["UNTIL=".data ++ printNat u]
                    | none => []) ++ rest) =
      parsePairs { st with untilDate := unt.or st.untilDate } rest := by
  rcases unt with _ | u
  · rfl
  · show parsePairs st (("UNTIL".data ++ '=' :: printNat u) :: rest) = _
    rw [parsePairs_cons st _ _ _ rest (processKV_UNTIL st u) (by decide)]
    rfl

/-- A join of a nonempty piece list starts with its first piece. -/
theorem joinSep_cons (sep : Char) (p : List Char) (ps : List (List Char)) :
    ∃ rest, joinSep sep (p :: ps) = p ++ rest := by
  rcases ps with _ | ⟨q, qs⟩
  · exact ⟨[], (List.append_nil p).symm⟩
  · exact ⟨sep :: joinSep sep (q :: qs), rfl⟩

/-- The piece list always starts with the FREQ piece. -/
theorem optsPieces_shape (o : RRuleOpts) :
    ∃ tail, optsPieces o = ("FREQ=".data ++ freqName o.freq) :: tail := ⟨_, rfl⟩

/-- No piece of a serialized options object contains a semicolon, given
valid weekday indices. -/
theorem optsPieces_no_semi (o : RRuleOpts)
    (hbw : ∀ l, o.byweekday = some l → ∀ w ∈ l, w < 7) :
    ∀ p ∈ optsPieces o, (';' : Char) ∉ p := by
  intro p hp
  unfold optsPieces at hp
  simp only [List.mem_append] at hp
  rcases hp with ((((hp | hp) | hp) | hp) | hp)
  · rcases List.mem_cons.mp hp with rfl | hp2
    · exact not_mem_append_chars (by decide) (freqName_no_semi o.freq)
    · rw [List.mem_singleton] at hp2
      subst hp2
      exact not_mem_append_chars (by decide) (printNat_no_semi o.interval)
  · rcases hc : o.count with _ | c <;> rw [hc] at hp
    · simp at hp
    · rw [List.mem_singleton] at hp
      subst hp
      exact not_mem_append_chars (by decide) (printNat_no_semi c)
  · rcases hu : o.untilDate with _ | u <;> rw [hu] at hp
    · simp at hp
    · rw [List.mem_singleton] at hp
      subst hp
      exact not_mem_append_chars (by decide) (printNat_no_semi u)
  · rcases hw : o.byweekday with _ | l <;> rw [hw] at hp
    · simp at hp
    · rw [List.mem_singleton] at hp
      subst hp
      refine not_mem_append_chars (by decide) (joinSep_not_mem (by decide) _ ?_)
      intro r hr
      rcases List.mem_map.mp hr with ⟨w, hwmem, rfl⟩
      exact (weekdayName_props w (hbw l hw w hwmem)).2.2.2
  · rcases hm : o.bymonthday with _ | l <;> rw [hm] at hp
    · simp at hp
    · rw [List.mem_singleton] at hp
      subst hp
      refine not_mem_append_chars (by decide) (joinSep_not_mem (by decide) _ ?_)
      intro r hr
      rcases List.mem_map.mp hr with ⟨i, _, rfl⟩
      exact printInt_no_semi i

/-- A serialized options object never starts with the scheme prefix. -/
theorem optsToString_no_pre (o : RRuleOpts) :
    listStartsWith "RRULE:".data (optsToString o).data = false := by
  obtain ⟨tail, htail⟩ := optsPieces_shape o
  show listStartsWith "RRULE:".data (joinSep ';' (optsPieces o)) = false
  rw [htail]
  obtain ⟨rest, hrest⟩ := joinSep_cons ';' _ tail
  rw [hrest]
  rfl

/-- The source's prefixing step always prepends to a serialized options
object. -/
theorem withRRulePre_optsToString (o : RRuleOpts) :
    withRRulePre (optsToString o) = "RRULE:" ++ optsToString o := by
  unfold withRRulePre
  rw [if_neg]
  rw [optsToString_no_pre]
  simp

/-- Parsing prefixed text parses the body pieces. -/
theorem fromString_prefixed (s : String) :
    fromString ("RRULE:" ++ s) = parsePairs emptyPartial (splitOnChar ';' s.data) := by
  show parsePairs emptyPartial (splitOnChar ';'
      (match dropPre "RRULE:".data ("RRULE:" ++ s).data with
       | some rest => rest
       | none => ("RRULE:" ++ s).data)) =
    parsePairs emptyPartial (splitOnChar ';' s.data)
  rw [String.data_append, dropPre_same]

/-- The modelled parser inverts the modelled serializer on any options
object whose by-lists, when present, are nonempty with valid weekday
indices. -/
theorem fromString_optsToString (o : RRuleOpts)
    (hbw : ∀ l, o.byweekday = some l → l ≠ [] ∧ ∀ w ∈ l, w < 7)
    (hbm : ∀ l, o.bymonthday = some l → l ≠ []) :
    fromString ("RRULE:" ++ optsToString o) = some o := by
  rw [fromString_prefixed]
  show parsePairs emptyPartial (splitOnChar ';' (joinSep ';' (optsPieces o))) = some o
  rw [splitOnChar_joinSep ';' (optsPieces o)
      (by
        obtain ⟨tail, ht⟩ := optsPieces_shape o
        rw [ht]
        simp)
      (optsPieces_no_semi o (fun l hl => (hbw l hl).2))]
  obtain ⟨f, i, cnt, unt, bwo, bmo⟩ := o
  simp only at hbw hbm
  unfold optsPieces
  rw [List.append_assoc, List.append_assoc, List.append_assoc]
  simp only [List.cons_append, List.nil_append]
  refine Eq.trans (parsePairs_cons emptyPartial _ "FREQ".data (freqName f) _
    (processKV_FREQ emptyPartial f) (by decide)) ?_
  refine Eq.trans (parsePairs_cons _ _ "INTERVAL".data (printNat i) _
    (processKV_INTERVAL _ i) (by decide)) ?_
  refine Eq.trans (parsePairs_count_piece _ cnt _) ?_
  refine Eq.trans (parsePairs_until_piece _ unt _) ?_
  rcases bwo with _ | bl
  · rcases bmo with _ | ml
    · simp [parsePairs, Option.or_none, emptyPartial]
    · refine Eq.trans (parsePairs_cons _ _ "BYMONTHDAY".data (joinSep ',' (ml.map printInt)) []
        (processKV_BYMONTHDAY _ ml (hbm ml rfl)) (by decide)) ?_
      simp [parsePairs, Option.or_none, emptyPartial]
  · obtain ⟨hne, h7⟩ := hbw bl rfl
    rcases bmo with _ | ml
    · refine Eq.trans (parsePairs_cons _ _ "BYDAY".data (joinSep ',' (bl.map weekdayName)) _
        (processKV_BYDAY _ bl h7 hne) (by decide)) ?_
      simp [parsePairs, Option.or_none, emptyPartial]
    · refine Eq.trans (parsePairs_cons _ _ "BYDAY".data (joinSep ',' (bl.map weekdayName)) _
        (processKV_BYDAY _ bl h7 hne) (by decide)) ?_
      refine Eq.trans (parsePairs_cons _ _ "BYMONTHDAY".data (joinSep ',' (ml.map printInt)) []
        (processKV_BYMONTHDAY _ ml (hbm ml rfl)) (by decide)) ?_
      simp [parsePairs, Option.or_none, emptyPartial]

/-- The source's `parseRRule` inverts the modelled serializer, producing
the rule that `optsToRule` reads off the options. -/
theorem parseRRule_optsToString (o : RRuleOpts)
    (hbw : ∀ l, o.byweekday = some l → l ≠ [] ∧ ∀ w ∈ l, w < 7)
    (hbm : ∀ l, o.bymonthday = some l → l ≠ []) :
    parseRRule (optsToString o) = some (optsToRule o) := by
  unfold parseRRule
  rw [withRRulePre_optsToString, fromString_optsToString o hbw hbm]
  rfl

/-- Claim C3: for every valid rule spec — one of the four frequencies,
interval at least 1, a positive count or an until date but not both, and
optional nonempty by-lists with weekday indices 0-6 —
`parseRRule (generateRRule spec)` returns the spec field-for-field. -/
theorem claim_C3_roundtrip (r : RepeatRule)
    (hint : 1 ≤ r.interval)
    (hboth : ¬(r.count.isSome ∧ r.untilDate.isSome))
    (hcount : ∀ c, r.count = some c → 1 ≤ c)
    (hbw : ∀ l, r.byWeekday = some l → l ≠ [] ∧ ∀ w ∈ l, w < 7)
    (hbm : ∀ l, r.byMonthDay = some l → l ≠ []) :
    parseRRule (generateRRule r) = some r := by
  obtain ⟨f, i, cnt, unt, bwl, bml⟩ := r
  simp only at hint hboth hcount hbw hbm
  have hi0 : ¬(i = 0) := by omega
  rcases cnt with _ | c
  · rcases bwl with _ | bl
    · rcases bml with _ | ml
      · have hgen : generateRRule ⟨f, i, none, unt, none, none⟩ =
            optsToString ⟨f, i, none, unt, none, none⟩ := by
          unfold generateRRule
          simp only [if_neg hi0, if_neg (show ¬(false = true) from by decide)]
        rw [hgen, parseRRule_optsToString _
            (fun l hl => by exact absurd hl (by simp))
            (fun l hl => by exact absurd hl (by simp))]
        unfold optsToRule
        simp only [if_neg hi0]
      · have hmlne : ml ≠ [] := hbm ml rfl
        have hgen : generateRRule ⟨f, i, none, unt, none, some ml⟩ =
            optsToString ⟨f, i, none, unt, none, some ml⟩ := by
          unfold generateRRule
          simp only [if_neg hi0, if_neg hmlne, if_neg (show ¬(false = true) from by decide)]
        rw [hgen, parseRRule_optsToString _
            (fun l hl => by exact absurd hl (by simp))
            (fun l hl => by injection hl with h; subst h; exact hmlne)]
        unfold optsToRule
        simp only [if_neg hi0, if_neg hmlne]
    · obtain ⟨hblne, hbl7⟩ := hbw bl rfl
      rcases bml with _ | ml
      · have hgen : generateRRule ⟨f, i, none, unt, some bl, none⟩ =
            optsToString ⟨f, i, none, unt, some bl, none⟩ := by
          unfold generateRRule
          simp only [if_neg hi0, if_neg hblne, if_neg (show ¬(false = true) from by decide)]
        rw [hgen, parseRRule_optsToString _
            (fun l hl => by injection hl with h; subst h; exact ⟨hblne, hbl7⟩)
            (fun l hl => by exact absurd hl (by simp))]
        unfold optsToRule
        simp only [if_neg hi0, if_neg hblne]
      · have hmlne : ml ≠ [] := hbm ml rfl
        have hgen : generateRRule ⟨f, i, none, unt, some bl, some ml⟩ =
            optsToString ⟨f, i, none, unt, some bl, some ml⟩ := by
          unfold generateRRule
          simp only [if_neg hi0, if_neg hblne, if_neg hmlne, if_neg (show ¬(false = true) from by decide)]
        rw [hgen, parseRRule_optsToString _
            (fun l hl => by injection hl with h; subst h; exact ⟨hblne, hbl7⟩)
            (fun l hl => by injection hl with h; subst h; exact hmlne)]
        unfold optsToRule
        simp only [if_neg hi0, if_neg hblne, if_neg hmlne]
  · rcases unt with _ | u
    swap
    · exact absurd ⟨rfl, rfl⟩ hboth
    · have hc1 : 1 ≤ c := hcount c rfl
      have hc0 : ¬(c = 0) := by omega
      rcases bwl with _ | bl
      · rcases bml with _ | ml
        · have hgen : generateRRule ⟨f, i, some c, none, none, none⟩ =
              optsToString ⟨f, i, some c, none, none, none⟩ := by
            unfold generateRRule
            simp only [if_neg hi0, if_neg hc0, ite_self]
          rw [hgen, parseRRule_optsToString _
              (fun l hl => by exact absurd hl (by simp))
              (fun l hl => by exact absurd hl (by simp))]
          unfold optsToRule
          simp only [if_neg hi0, if_neg hc0]
        · have hmlne : ml ≠ [] := hbm ml rfl
          have hgen : generateRRule ⟨f, i, some c, none, none, some ml⟩ =
              optsToString ⟨f, i, some c, none, none, some ml⟩ := by
            unfold generateRRule
            simp only [if_neg hi0, if_neg hc0, if_neg hmlne, ite_self]
          rw [hgen, parseRRule_optsToString _
              (fun l hl => by exact absurd hl (by simp))
              (fun l hl => by injection hl with h; subst h; exact hmlne)]
          unfold optsToRule
          simp only [if_neg hi0, if_neg hc0, if_neg hmlne]
      · obtain ⟨hblne, hbl7⟩ := hbw bl rfl
        rcases bml with _ | ml
        · have hgen : generateRRule ⟨f, i, some c, none, some bl, none⟩ =
              optsToString ⟨f, i, some c, none, some bl, none⟩ := by
            unfold generateRRule
            simp only [if_neg hi0, if_neg hc0, if_neg hblne, ite_self]
          rw [hgen, parseRRule_optsToString _
              (fun l hl => by injection hl with h; subst h; exact ⟨hblne, hbl7⟩)
              (fun l hl => by exact absurd hl (by simp))]
          unfold optsToRule
          simp only [if_neg hi0, if_neg hc0, if_neg hblne]
        · have hmlne : ml ≠ [] := hbm ml rfl
          have hgen : generateRRule ⟨f, i, some c, none, some bl, some ml⟩ =
              optsToString ⟨f, i, some c, none, some bl, some ml⟩ := by
            unfold generateRRule
            simp only [if_neg hi0, if_neg hc0, if_neg hblne, if_neg hmlne, ite_self]
          rw [hgen, parseRRule_optsToString _
              (fun l hl => by injection hl with h; subst h; exact ⟨hblne, hbl7⟩)
              (fun l hl => by injection hl with h; subst h; exact hmlne)]
          unfold optsToRule
          simp only [if_neg hi0, if_neg hc0, if_neg hblne, if_neg hmlne]

/-- Witness for claim C3 on a concrete valid weekly rule. -/
theorem claim_C3_witness :
    parseRRule (generateRRule
      { frequency := .WEEKLY, interval := 2, count := some 10, untilDate := none,
        byWeekday := some [0, 2, 4], byMonthDay := some [1, 15, -1] }) =
      some { frequency := .WEEKLY, interval := 2, count := some 10, untilDate := none,
             byWeekday := some [0, 2, 4], byMonthDay := some [1, 15, -1] } :=
  claim_C3_roundtrip _ (by decide) (by simp)
    (fun c hc => by injection hc with h; omega)
    (fun l hl => by injection hl with h; subst h; exact ⟨by decide, by decide⟩)
    (fun l hl => by injection hl with h; subst h; decide)
